import Mathlib

/-!
Verification of the multi-team webview lifecycle and state-reconciliation
engine of the slack-font desktop client.

The definitions below are a shallow embedding of the renderer code:
`TeamsViewController` (src/renderer/main.js: `mergeTeamList`,
`shouldMergeTeamList`, `presentAvailableTeams`, `makeTeamPrimary`,
`updateBadgeInfoForTeam`, `setupNetworkStatusStateMachine`,
`handleWebViewCrash`, `getInitialsOfName`), `SlackWebViewContext`
(web-view-ctx: `executeJavaScript`, `setUpErrorHandling`) and
`NetworkStatus`.

Modelling conventions:
- JavaScript object references that only matter up to identity (webview
  handles, `webViewLoaded` observables, icon hashes, theme objects) are
  modelled as `Option Nat` tokens; `none` conflates a missing key with an
  explicit `null`/`undefined` value.
- `_.extend(target, src)` is modelled field-wise: a `some` field of `src`
  overwrites, a `none` field keeps the target's value.  Incoming team
  updates from the SSB are a separate record type carrying only the keys
  the SSB actually sends (`id`, `team_id`, `team_name`, `team_url`,
  `reason`), so `_.pick`/`_.extend` chains translate directly.
- The theme cache (`ThemeCache.fetchThemeInfoAndIconsForTeam`) is passed
  as an explicit function from `team_id` to cached data.
- Side-effecting calls (DOM, IPC sends, subscriptions) are reified as an
  effect trace where a claim is about them.
-/

namespace SlackFont

/-- `badgeInfo` as sent by ssb/team.coffee and stored on a team record.
`connectionStatus` is the numeric value of `sortableConnectionStatus`
(online = 0, connecting = 1, offline = 2). -/
structure BadgeInfo where
  unread : Nat
  unreadHighlights : Nat
  connectionStatus : Nat
deriving DecidableEq

/-- A team registry record as managed by `TeamsViewController.teamList`. -/
structure Team where
  team_id : String
  id : String
  team_name : String
  team_url : String
  webView : Option Nat
  webViewLoaded : Option Nat
  icons : Option Nat
  initials : Option String
  theme : Option Nat
  badgeInfo : Option BadgeInfo
  shouldDelete : Bool
deriving DecidableEq

/-- An entry of the team list handed to `presentAvailableTeams` by the SSB
(`update` message) or synthesized by the signin flow.  It carries only the
keys the SSB sends. -/
structure TeamUpdate where
  team_id : String
  id : String
  team_name : String
  team_url : String
  reason : Option String
deriving DecidableEq

/-- The data `ThemeCache.fetchThemeInfoAndIconsForTeam` returns for one
`team_id`: cached icons, initials and theme values; `none` marks a key that
is not present in the cache entry. -/
structure ThemeData where
  icons : Option Nat
  initials : Option String
  theme : Option Nat
deriving DecidableEq

/-- The theme cache, keyed by `team_id`. -/
abbrev Cache := String → ThemeData

/-- A `TeamUpdate` object viewed as a registry record: exactly the keys the
update carries; every registry-only key is absent. -/
def toTeamRaw (u : TeamUpdate) : Team :=
  ⟨u.team_id, u.id, u.team_name, u.team_url, none, none, none, none, none, none, false⟩

/-- `_.extend(team, themeCache.fetchThemeInfoAndIconsForTeam(team))`:
cached keys that are present overwrite the record's. -/
def extendCache (t : Team) (c : ThemeData) : Team :=
  { t with
    icons := match c.icons with | some v => some v | none => t.icons
    initials := match c.initials with | some v => some v | none => t.initials
    theme := match c.theme with | some v => some v | none => t.theme }

/-- `_.extend(newTeam, _.pick(item, 'webView', 'webViewLoaded', 'icons',
'initials'))`: the incoming entry's data with the four preserved keys taken
from the prior record. -/
def mergeUpdateKeep (u : TeamUpdate) (item : Team) : Team :=
  { toTeamRaw u with
    webView := item.webView
    webViewLoaded := item.webViewLoaded
    icons := item.icons
    initials := item.initials }

/-- Result of `mergeTeamList`: the new registry, the newly added teams, and
the webview tokens collected for disposal. -/
structure MergeResult where
  teamList : List Team
  newTeams : List Team
  toDispose : List Nat
deriving DecidableEq

/-- One iteration of step 2 of `mergeTeamList`: skip an incoming entry
whose `team_id` is already in the (growing) registry, otherwise append it,
extended with cached theme data, and record it among the new teams. -/
def mergeStep2Go (cache : Cache) (acc : List Team × List Team)
    (u : TeamUpdate) : List Team × List Team :=
  if acc.1.any (fun x => x.team_id == u.team_id) then acc
  else
    (acc.1 ++ [extendCache (toTeamRaw u) (cache u.team_id)],
     acc.2 ++ [extendCache (toTeamRaw u) (cache u.team_id)])

/-- Step 2 of `mergeTeamList`: the loop adding teams not yet in the list. -/
def mergeStep2 (cache : Cache) (l : List Team) (upd : List TeamUpdate) :
    List Team × List Team :=
  upd.foldl (mergeStep2Go cache) (l, [])

/-- Step 3 of `mergeTeamList`, per registry slot: replace a record that has
a matching incoming entry by the incoming data with `webView`,
`webViewLoaded`, `icons`, `initials` preserved and cached theme data
refreshed; otherwise mark it for deletion. -/
def mergeStep3Fn (cache : Cache) (upd : List TeamUpdate) (item : Team) : Team :=
  match upd.find? (fun x => x.team_id == item.team_id) with
  | some newTeam =>
      extendCache (mergeUpdateKeep newTeam item) (cache newTeam.team_id)
  | none => { item with shouldDelete := true }

/-- Step 1 of `mergeTeamList`: when a `__signin__` placeholder is in the
registry and the incoming list is non-empty, the registry collapses to the
first incoming entry carrying over the placeholder's `webView`,
`webViewLoaded`, `icons` and `initials`. -/
def mergeFixup (teamList : List Team) (upd : List TeamUpdate) : List Team :=
  match teamList.find? (fun x => x.team_id == "__signin__"), upd with
  | some signinTeam, u0 :: _ =>
      [{ toTeamRaw u0 with
          webView := signinTeam.webView
          webViewLoaded := signinTeam.webViewLoaded
          icons := signinTeam.icons
          initials := signinTeam.initials }]
  | _, _ => teamList

/-- Steps 2 to 4 of `mergeTeamList`: add unseen incoming teams, update
matching slots in place, drop slots without a match and collect their
webviews for disposal. -/
def mergeMain (cache : Cache) (l1 : List Team) (upd : List TeamUpdate) :
    MergeResult :=
  ⟨((mergeStep2 cache l1 upd).1.map (mergeStep3Fn cache upd)).filter
     (fun t => !t.shouldDelete),
   (mergeStep2 cache l1 upd).2,
   (((mergeStep2 cache l1 upd).1.map (mergeStep3Fn cache upd)).filter
     (fun t => t.shouldDelete)).filterMap (fun t => t.webView)⟩

/-- `TeamsViewController.mergeTeamList` as a pure function of the current
registry, the incoming list and the theme cache. -/
def mergeTeamList (cache : Cache) (teamList : List Team)
    (updated : Option (List TeamUpdate)) : MergeResult :=
  match updated with
  | none => ⟨teamList, [], []⟩
  | some upd =>
    if teamList.isEmpty then
      ⟨upd.map toTeamRaw, [], []⟩
    else if upd.any (fun x => x.team_id == "__signin__") then
      ⟨teamList, [], []⟩
    else
      mergeMain cache (mergeFixup teamList upd) upd

/-- The reconciler state carried across `presentAvailableTeams` calls. -/
structure ReconcilerState where
  teamList : List Team
  haveMergedTeamListOnce : Bool
deriving DecidableEq

/-- The JavaScript `.sort()` on an array of strings.  Since string
comparison is a total order, every correct sort returns the same list, so
insertion sort is used as an executable model. -/
def sortStrings (l : List String) : List String :=
  l.insertionSort (fun a b => a ≤ b)

/-- `TeamsViewController.shouldMergeTeamList`, returning the decision and the
updated one-shot `haveMergedTeamListOnce` flag. -/
def shouldMergeTeamList (st : ReconcilerState)
    (updated : Option (List TeamUpdate)) : Bool × Bool :=
  if st.teamList.isEmpty then (true, st.haveMergedTeamListOnce)
  else if !st.haveMergedTeamListOnce then (true, true)
  else
    (!(sortStrings (st.teamList.map (fun x => x.team_id)) ==
       sortStrings ((updated.getD []).map (fun x => x.team_id))),
     true)

/-- Outcome of one `presentAvailableTeams` run: the new reconciler state,
newly added teams, webviews scheduled for disposal, and whether the merge
actually ran. -/
structure ReconcileOut where
  state : ReconcilerState
  newTeams : List Team
  toDispose : List Nat
  didMerge : Bool
deriving DecidableEq

/-- The team-list part of `TeamsViewController.presentAvailableTeams`:
the sign-out collapse, the signin-noise suppression (which returns early
without merging) and the `shouldMergeTeamList`-gated merge. -/
def presentAvailableTeams (cache : Cache) (st : ReconcilerState)
    (updated : Option (List TeamUpdate)) : ReconcileOut :=
  let loggedOffTheLastUser :=
    match updated with
    | some [u] =>
        u.reason == some "didSignOut" && u.id == "__signin__" &&
          st.teamList.length == 1
    | _ => false
  let updated1 := if loggedOffTheLastUser then some [] else updated
  if (updated1.getD []).any (fun x => x.id == "__signin__") &&
      !st.teamList.isEmpty then
    ⟨st, [], [], false⟩
  else
    let sm := shouldMergeTeamList st updated1
    let st1 : ReconcilerState := ⟨st.teamList, sm.2⟩
    if sm.1 then
      let r := mergeTeamList cache st1.teamList updated1
      ⟨⟨r.teamList, sm.2⟩, r.newTeams, r.toDispose, true⟩
    else ⟨st1, [], [], false⟩

/-- The `team_id` column of a registry. -/
def idsOf (l : List Team) : List String := l.map (fun t => t.team_id)

/-- The registry invariant: no two records share a `team_id`. -/
def uniqueIds (l : List Team) : Prop := (idsOf l).Nodup

instance : DecidablePred uniqueIds := fun l =>
  inferInstanceAs (Decidable (idsOf l).Nodup)

/-- Uniqueness of `team_id`s in an incoming update list. -/
def uniqueUpdateIds (l : List TeamUpdate) : Prop :=
  (l.map (fun u => u.team_id)).Nodup

instance : DecidablePred uniqueUpdateIds := fun l =>
  inferInstanceAs (Decidable (l.map (fun u : TeamUpdate => u.team_id)).Nodup)

/-- Running a sequence of `mergeTeamList` calls, each with its own cache
snapshot and incoming list, threading the registry through. -/
def runMerges (tl : List Team)
    (calls : List (Cache × Option (List TeamUpdate))) : List Team :=
  calls.foldl (fun acc c => (mergeTeamList c.1 acc c.2).teamList) tl

/-- `Math.max` on (non-NaN) numbers. -/
def jsMaxInt (a b : Int) : Int := if a ≤ b then b else a

/-- One iteration of the loop in
`TeamsViewController.updateBadgeInfoForTeam`: a missing `badgeInfo`
contributes nothing to the sums, and a team whose `connectionStatus` is
missing or `0` (JS falsy) contributes `-1` to the status accumulator. -/
def badgeStep (acc : Nat × Nat × Int) (team : Team) : Nat × Nat × Int :=
  ((match team.badgeInfo with
    | some b => acc.1 + b.unread
    | none => acc.1),
   (match team.badgeInfo with
    | some b => acc.2.1 + b.unreadHighlights
    | none => acc.2.1),
   jsMaxInt acc.2.2
     (match team.badgeInfo with
      | some b => if b.connectionStatus = 0 then -1 else (b.connectionStatus : Int)
      | none => -1))

/-- The accumulator loop of `TeamsViewController.updateBadgeInfoForTeam`:
`(unread, unreadHighlights, connectionStatus)` after walking the team list,
starting from `(0, 0, -1)`. -/
def updateBadgeTotals (teamList : List Team) : Nat × Nat × Int :=
  teamList.foldl badgeStep (0, 0, -1)

/-- `_.invert(sortableConnectionStatus)` looked up at a numeric status;
`none` models an `undefined` lookup result. -/
def sortableConnStatusName (c : Int) : Option String :=
  if c = 0 then some "online"
  else if c = 1 then some "connecting"
  else if c = 2 then some "offline"
  else none

/-- The global badge value handed to
`badgeManager.setGlobalBadgeCount(unreadHighlights, unread, realConnectionStatus)`:
`sortableConnectionStatusToName[connectionStatus] || 'online'`. -/
def globalBadgeCount (teamList : List Team) : Nat × Nat × String :=
  ((updateBadgeTotals teamList).2.1,
   (updateBadgeTotals teamList).1,
   (sortableConnStatusName (updateBadgeTotals teamList).2.2).getD "online")

/-- Spec-side reading of the badge fold: the sum of `unread` over all teams
(a team without badge info counts 0). -/
def sumUnread (teamList : List Team) : Nat :=
  (teamList.map (fun t =>
    match t.badgeInfo with | some b => b.unread | none => 0)).sum

/-- Spec-side reading: the sum of `unread_highlights` over all teams. -/
def sumUnreadHighlights (teamList : List Team) : Nat :=
  (teamList.map (fun t =>
    match t.badgeInfo with | some b => b.unreadHighlights | none => 0)).sum

/-- The numeric connection status of a team; a team without badge info
defaults to online (0). -/
def statusOf (t : Team) : Nat :=
  match t.badgeInfo with | some b => b.connectionStatus | none => 0

/-- Spec-side reading: the worst (maximum) numeric connection status over
all teams under online(0) < connecting(1) < offline(2). -/
def worstStatus (teamList : List Team) : Nat :=
  (teamList.map statusOf).foldl Nat.max 0

/-- Spec-side naming of a status in {0, 1, 2}. -/
def statusName (c : Nat) : String :=
  if c = 1 then "connecting" else if c = 2 then "offline" else "online"

/-- The loading-screen scene currently shown
(`LoadingScreen.showTrying/hideAll/showOffline/showSlackDown`). -/
inductive Screen
  | trying
  | hidden
  | offline
  | slackDown
deriving DecidableEq

/-- The subscriptions owned by the "primary" slot
(`TeamsViewController.primaryTeamDisp`): the focus-follow and crash
listeners taken out when a team becomes primary. -/
structure PrimarySubs where
  teamId : String
  crashWv : Nat
deriving DecidableEq

/-- The state touched by `makeTeamPrimary`: the primary handle, the loading
screen scene, and the primary slot's subscriptions. -/
structure PrimaryState where
  primaryTeam : Option Team
  screen : Screen
  subs : Option PrimarySubs
deriving DecidableEq

/-- Observable side effects of the selector and the network state machine,
in emission order. -/
inductive Effect
  | showTrying
  | hideAll
  | teamChangedNull
  | teamChanged (name : String) (wv : Option Nat)
  | disposeSubs (teamId : String)
  | subscribeFocus (teamId : String)
  | subscribeCrash (wv : Nat)
  | showWebView (wv : Nat)
  | updateBadge (teamId : String)
  | presentTeams
  | showOffline
  | showSlackDown
deriving DecidableEq

/-- `TeamsViewController.makeTeamPrimary`.  Passing `none` clears the
primary team; passing a team whose `team_id` already matches the primary
returns right after `loadingScreen.hideAll()`.  The full switch
dereferences `team.webView.crashed`, so a team without a webview throws
(`none` result). -/
def makeTeamPrimary (st : PrimaryState) (team : Option Team) :
    Option (PrimaryState × List Effect) :=
  match team with
  | none =>
    some (⟨none, Screen.trying, none⟩,
      (match st.subs with
       | some s => [Effect.disposeSubs s.teamId]
       | none => []) ++ [Effect.showTrying, Effect.teamChangedNull])
  | some t =>
    if st.primaryTeam.any (fun p => p.team_id == t.team_id) then
      some ({ st with screen := Screen.hidden }, [Effect.hideAll])
    else
      match t.webView with
      | none => none
      | some wv =>
        some (⟨some t, Screen.hidden, some ⟨t.team_id, wv⟩⟩,
          [Effect.hideAll, Effect.teamChanged t.team_name (some wv),
           Effect.subscribeFocus t.team_id, Effect.subscribeCrash wv] ++
          (match st.subs with
           | some s => [Effect.disposeSubs s.teamId]
           | none => []) ++
          [Effect.showWebView wv, Effect.updateBadge t.team_id])

/-- The inputs `setupNetworkStatusStateMachine` reads from `NetworkStatus`
besides the emitted boolean: `browserIsOnline()` and the `_reason` the
probe recorded (what calling `reason()` would return). -/
structure NetInfo where
  browserOnline : Bool
  reason : Option String
deriving DecidableEq

/-- A JavaScript value as a strict-equality comparison against a string
sees it: a string value, or a function object. -/
inductive JsProp
  | str (s : String)
  | methodRef
deriving DecidableEq

/-- The value of the property access `this.networkStatus.reason` in
main.js: `reason` is a CoffeeScript prototype method (`reason: ->
@_reason` in network-status), and main.js reads the property without
calling it — unlike `browserIsOnline()` on the same line — so the access
yields the method object, not the `_reason` string. -/
def networkStatusReasonProp (_net : NetInfo) : JsProp := JsProp.methodRef

/-- JavaScript `===` between such a value and a string literal: a function
object is never strictly equal to a string. -/
def jsStrictEqStr : JsProp → String → Bool
  | JsProp.str s, t => s == t
  | JsProp.methodRef, _ => false

/-- The subscriber body of
`TeamsViewController.setupNetworkStatusStateMachine`, as the code is
written: on `online` re-invoke team presentation; otherwise clear the
primary team, then test
`this.networkStatus.browserIsOnline() && this.networkStatus.reason === 'slackDown'`
to pick between the slack-down and offline screens. -/
def handleNetworkStatus (st : PrimaryState) (net : NetInfo) (onlineNow : Bool) :
    PrimaryState × List Effect :=
  if onlineNow then (st, [Effect.presentTeams])
  else
    match makeTeamPrimary st none with
    | some (st1, e1) =>
      if net.browserOnline && jsStrictEqStr (networkStatusReasonProp net) "slackDown" then
        ({ st1 with screen := Screen.slackDown }, e1 ++ [Effect.showSlackDown])
      else
        ({ st1 with screen := Screen.offline }, e1 ++ [Effect.showOffline])
    | none => (st, [])

/-- The transition rule as the spec and claim state it (the evident intent
of the code, with `reason` actually consulted): show the slack-down screen
when the browser claims online but the probe failed with reason
`slackDown`, else the offline screen. -/
def handleNetworkStatusIntended (st : PrimaryState) (net : NetInfo)
    (onlineNow : Bool) : PrimaryState × List Effect :=
  if onlineNow then (st, [Effect.presentTeams])
  else
    match makeTeamPrimary st none with
    | some (st1, e1) =>
      if net.browserOnline && (net.reason == some "slackDown") then
        ({ st1 with screen := Screen.slackDown }, e1 ++ [Effect.showSlackDown])
      else
        ({ st1 with screen := Screen.offline }, e1 ++ [Effect.showOffline])
    | none => (st, [])

/-- One `eval-async` reply payload from the embedded page. -/
structure EvalResponse where
  id : String
  result : Option String
  error : Option String
deriving DecidableEq

/-- An `ipc-message` event from the webview, stamped with its arrival time
in milliseconds after `executeJavaScript` subscribed. -/
structure IpcMessage where
  channel : String
  args : List EvalResponse
  time : Nat
deriving DecidableEq

/-- JavaScript truthiness of a string-or-null value: `null`, `undefined`
and `""` are falsy. -/
def jsTruthyStr : Option String → Bool
  | none => false
  | some s => !(s == "")

/-- The `where` filter of `SlackWebViewContext.executeJavaScript`: channel
`eval-async`, exactly one argument, a truthy `result` or `error`, and the
correlation id matching the outgoing message. -/
def matchesEvalResp (msgId : String) (m : IpcMessage) : Bool :=
  m.channel == "eval-async" && m.args.length == 1 &&
    (match m.args with
     | a :: _ => (jsTruthyStr a.result || a.error.isSome) && a.id == msgId
     | [] => false)

/-- How the returned future settles. `resolvedParsed raw` stands for
resolution with `JSON.parse(raw)`.  `rejected` is expressible so that a
rejection can be talked about, but the pipeline's trailing catch means the
program never produces it. -/
inductive EvalOutcome
  | resolvedParsed (raw : String)
  | resolvedNull
  | rejected (e : String)
deriving DecidableEq

/-- The `flatMap` body applied to a response that passed the filter: an
error-carrying response makes the observable error
(`rx.Observable.throw(new Error(...))`), a null result yields a null
resolution, and any other result yields its JSON parse. -/
def evalRespFlatMap (a : EvalResponse) : Except String (Option String) :=
  if a.error.isSome then Except.error (a.error.getD "")
  else
    match a.result with
    | none => Except.ok none
    | some s => Except.ok (some s)

/-- The value the subscriber sees after the trailing
`.catch(() => rx.Observable.return(null))`: the catch sits downstream of
both `flatMap` and `timeout`, so every upstream error — a thrown
eval-error just like the 10-second timeout — is replaced by a `null`
resolution. -/
def evalRespSettled (a : EvalResponse) : EvalOutcome :=
  match evalRespFlatMap a with
  | Except.error _ => EvalOutcome.resolvedNull
  | Except.ok none => EvalOutcome.resolvedNull
  | Except.ok (some s) => EvalOutcome.resolvedParsed s

/-- Settling on the (optional) first correlated in-time response. -/
def evalSettle : Option IpcMessage → EvalOutcome
  | some m =>
    match m.args with
    | a :: _ => evalRespSettled a
    | [] => EvalOutcome.resolvedNull
  | none => EvalOutcome.resolvedNull

/-- The settled value of the future `executeJavaScript` returns, given the
chronological stream of webview IPC events: the first correlated response
arriving before the 10-second timeout decides the outcome (through
`flatMap` and the trailing catch), and with no such response the timeout
error is likewise caught and replaced by a `null` resolution. -/
def evalOutcome (msgId : String) (stream : List IpcMessage) : EvalOutcome :=
  evalSettle
    ((stream.filter (fun m => m.time < 10000)).find? (matchesEvalResp msgId))

/-- The crash events merged by `SlackWebViewContext.setUpErrorHandling`. -/
inductive CrashKind
  | renderer
  | gpu
  | plugin (name version : String)
  | loadTimeout
deriving DecidableEq

/-- The string each crash event is mapped to before reaching
`handleWebViewCrash`. -/
def crashKindString : CrashKind → String
  | CrashKind.renderer => "Renderer"
  | CrashKind.gpu => "GPU"
  | CrashKind.plugin n v => "Plugin " ++ n ++ " " ++ v
  | CrashKind.loadTimeout => "Load timeout"

/-- `String.prototype.startsWith`, spelled out over the character lists. -/
def jsStartsWith (s p : String) : Bool :=
  s.data.take p.data.length == p.data

/-- Host-level actions `handleWebViewCrash` can take. -/
inductive HostAction
  | sendReload
  | showDialog
  | openLogs
deriving DecidableEq

/-- `TeamsViewController.handleWebViewCrash`: ignore plugin crashes, reload
immediately for ordinary teams, and for the Tiny Speck team show a
diagnostic dialog first (the dialog callback opens the logs on button 1 and
always reloads). -/
def handleWebViewCrash (type teamUrl : String) (dialogResponse : Nat) :
    List HostAction :=
  if jsStartsWith type "Plugin" then []
  else if !(teamUrl == "https://tinyspeck.slack.com/") then
    [HostAction.sendReload]
  else
    [HostAction.showDialog] ++
      (if dialogResponse = 1 then [HostAction.openLogs] else []) ++
      [HostAction.sendReload]

/-- `TeamsViewController.getInitialsOfName` (default `maxLength` is 2 at
the call sites).  A `none` name models `null`/`undefined`. -/
def getInitialsOfName (name : Option String) (maxLength : Nat) : String :=
  match name with
  | none => ""
  | some s =>
    if s == "" then ""
    else
      String.mk
        (((s.splitOn " ").foldl
          (fun acc w => if w.length < 1 then acc else acc ++ w.data.take 1)
          []).take maxLength)

/-- Spec-side reading of the initials: first character of each non-empty
space-separated word, truncated to `maxLength`. -/
def specInitials (s : String) (maxLength : Nat) : List Char :=
  ((((s.splitOn " ").filter (fun w => !(w == ""))).map
    (fun w => w.data.take 1)).flatten).take maxLength

/-! ### Structural lemmas about the merge pipeline -/

theorem toTeamRaw_team_id (u : TeamUpdate) : (toTeamRaw u).team_id = u.team_id := rfl

theorem extendCache_team_id (t : Team) (c : ThemeData) :
    (extendCache t c).team_id = t.team_id := rfl

theorem extendCache_webView (t : Team) (c : ThemeData) :
    (extendCache t c).webView = t.webView := rfl

theorem extendCache_shouldDelete (t : Team) (c : ThemeData) :
    (extendCache t c).shouldDelete = t.shouldDelete := rfl

theorem mergeStep3Fn_team_id (cache : Cache) (upd : List TeamUpdate) (item : Team) :
    (mergeStep3Fn cache upd item).team_id = item.team_id := by
  unfold mergeStep3Fn
  cases h : upd.find? (fun x => x.team_id == item.team_id) with
  | none => rfl
  | some u =>
    have hu := List.find?_some h
    simp only [beq_iff_eq] at hu
    simp [extendCache_team_id, mergeUpdateKeep, toTeamRaw, hu]

/-- In a duplicate-free registry, two distinct members have distinct ids. -/
theorem ne_team_id_of_mem_nodup {l : List Team} {a b : Team}
    (hn : uniqueIds l) (ha : a ∈ l) (hb : b ∈ l) (hab : a ≠ b) :
    a.team_id ≠ b.team_id := fun h =>
  hab (List.inj_on_of_nodup_map hn ha hb h)

/-- `find?` by id on a duplicate-free registry returns the member itself. -/
theorem find?_id_of_nodup {l : List Team} {t : Team}
    (hn : uniqueIds l) (ht : t ∈ l) :
    l.find? (fun x => x.team_id == t.team_id) = some t := by
  induction l with
  | nil => cases ht
  | cons a rest ih =>
    rcases List.mem_cons.mp ht with rfl | hmem
    · simp [List.find?_cons]
    · have hne : a.team_id ≠ t.team_id := by
        have hanot : a.team_id ∉ idsOf rest := by
          have := hn
          simp only [uniqueIds, idsOf, List.map_cons, List.nodup_cons] at this
          exact this.1
        intro h
        exact hanot (h ▸ List.mem_map_of_mem (fun x => x.team_id) hmem)
      have hrest : uniqueIds rest := by
        have := hn
        simp only [uniqueIds, idsOf, List.map_cons, List.nodup_cons] at this
        exact this.2
      simp [List.find?_cons, beq_iff_eq, hne, ih hrest hmem]

/-- `find?` by id after a filter, when the member survives the filter. -/
theorem find?_id_filter_of_nodup {l : List Team} {t : Team} {p : Team → Bool}
    (hn : uniqueIds l) (ht : t ∈ l) (hp : p t = true) :
    (l.filter p).find? (fun x => x.team_id == t.team_id) = some t := by
  induction l with
  | nil => cases ht
  | cons a rest ih =>
    have hrest : uniqueIds rest := by
      have := hn
      simp only [uniqueIds, idsOf, List.map_cons, List.nodup_cons] at this
      exact this.2
    rcases List.mem_cons.mp ht with rfl | hmem
    · simp [List.filter_cons, hp, List.find?_cons]
    · have hne : a.team_id ≠ t.team_id := by
        have hanot : a.team_id ∉ idsOf rest := by
          have := hn
          simp only [uniqueIds, idsOf, List.map_cons, List.nodup_cons] at this
          exact this.1
        intro h
        exact hanot (h ▸ List.mem_map_of_mem (fun x => x.team_id) hmem)
      by_cases hpa : p a = true
      · simp [List.filter_cons, hpa, List.find?_cons, beq_iff_eq, hne,
          ih hrest hmem]
      · simp only [Bool.not_eq_true] at hpa
        simp [List.filter_cons, hpa, ih hrest hmem]

/-- The shape of the step-2 loop: the incoming additions are appended after
the starting registry, every appended record's id comes from the incoming
list, and duplicate-freeness of ids is preserved. -/
theorem mergeStep2_fold_shape (cache : Cache) :
    ∀ (upd : List TeamUpdate) (l nt : List Team),
    ∃ extra,
      (upd.foldl (mergeStep2Go cache) (l, nt)).1 = l ++ extra ∧
      (∀ x ∈ extra, ∃ u ∈ upd, x.team_id = u.team_id) ∧
      (uniqueIds l → uniqueIds (l ++ extra)) := by
  intro upd
  induction upd with
  | nil =>
    intro l nt
    exact ⟨[], by simp, by simp, by simp⟩
  | cons u us ih =>
    intro l nt
    by_cases hg : l.any (fun x => x.team_id == u.team_id) = true
    · obtain ⟨extra, h1, h2, h3⟩ := ih l nt
      refine ⟨extra, ?_, ?_, h3⟩
      · simpa [List.foldl_cons, mergeStep2Go, hg] using h1
      · intro x hx
        obtain ⟨v, hv, hvx⟩ := h2 x hx
        exact ⟨v, List.mem_cons_of_mem u hv, hvx⟩
    · simp only [Bool.not_eq_true] at hg
      obtain ⟨extra, h1, h2, h3⟩ :=
        ih (l ++ [extendCache (toTeamRaw u) (cache u.team_id)]) (nt ++ [extendCache (toTeamRaw u) (cache u.team_id)])
      refine ⟨extendCache (toTeamRaw u) (cache u.team_id) :: extra, ?_, ?_, ?_⟩
      · rw [List.foldl_cons]
        simp only [mergeStep2Go, hg]
        simpa [List.append_assoc] using h1
      · intro x hx
        rcases List.mem_cons.mp hx with rfl | hmem
        · exact ⟨u, List.mem_cons_self u us, by
            simp [extendCache_team_id, toTeamRaw_team_id]⟩
        · obtain ⟨v, hv, hvx⟩ := h2 x hmem
          exact ⟨v, List.mem_cons_of_mem u hv, hvx⟩
      · intro hl
        have hstep : uniqueIds (l ++ [extendCache (toTeamRaw u) (cache u.team_id)]) := by
          simp only [uniqueIds, idsOf, List.map_append, List.map_cons,
            List.map_nil]
          refine List.Nodup.append hl (List.nodup_singleton _) ?_
          intro a hal har
          simp only [extendCache_team_id, toTeamRaw_team_id,
            List.mem_singleton] at har
          subst har
          obtain ⟨x, hx, hxid⟩ := List.mem_map.mp hal
          have := List.any_eq_false.mp (by exact hg) x hx
          simp only [beq_iff_eq] at this
          exact this hxid
        have := h3 hstep
        simpa [List.append_assoc] using this

/-- Every id of the registry is preserved pointwise by step 3. -/
theorem idsOf_map_step3 (cache : Cache) (upd : List TeamUpdate) (l : List Team) :
    idsOf (l.map (mergeStep3Fn cache upd)) = idsOf l := by
  simp only [idsOf, List.map_map]
  exact List.map_congr_left (fun a _ => mergeStep3Fn_team_id cache upd a)

/-- A filtered registry keeps ids duplicate-free. -/
theorem uniqueIds_filter {l : List Team} (p : Team → Bool)
    (hn : uniqueIds l) : uniqueIds (l.filter p) := by
  exact List.Nodup.sublist (List.Sublist.map _ (List.filter_sublist l)) hn

/-- `mergeMain` preserves duplicate-freeness of the registry ids. -/
theorem mergeMain_uniqueIds (cache : Cache) (l1 : List Team)
    (upd : List TeamUpdate) (hn : uniqueIds l1) :
    uniqueIds (mergeMain cache l1 upd).teamList := by
  obtain ⟨extra, h1, _, h3⟩ := mergeStep2_fold_shape cache upd l1 []
  have h2u : uniqueIds (mergeStep2 cache l1 upd).1 := by
    rw [mergeStep2, h1]; exact h3 hn
  have h3u : uniqueIds ((mergeStep2 cache l1 upd).1.map (mergeStep3Fn cache upd)) := by
    unfold uniqueIds
    rw [idsOf_map_step3]
    exact h2u
  exact uniqueIds_filter _ h3u

/-- The signin fixup preserves duplicate-freeness of the registry ids. -/
theorem mergeFixup_uniqueIds (teamList : List Team) (upd : List TeamUpdate)
    (hn : uniqueIds teamList) : uniqueIds (mergeFixup teamList upd) := by
  unfold mergeFixup
  cases teamList.find? (fun x => x.team_id == "__signin__") with
  | none => cases upd <;> exact hn
  | some s =>
    cases upd with
    | nil => exact hn
    | cons u0 rest => simp [uniqueIds, idsOf]

/-- One `mergeTeamList` call keeps the registry ids duplicate-free,
provided the incoming list (when present) is itself duplicate-free. -/
theorem mergeTeamList_uniqueIds (cache : Cache) (tl : List Team)
    (upd : Option (List TeamUpdate)) (hn : uniqueIds tl)
    (hu : uniqueUpdateIds (upd.getD [])) :
    uniqueIds (mergeTeamList cache tl upd).teamList := by
  cases upd with
  | none => exact hn
  | some l =>
    unfold mergeTeamList
    by_cases he : tl.isEmpty
    · simp only [he, if_true]
      simp only [uniqueIds, idsOf, List.map_map]
      have : (l.map (fun u => (toTeamRaw u).team_id)) = l.map (fun u => u.team_id) :=
        List.map_congr_left (fun u _ => toTeamRaw_team_id u)
      show (l.map ((fun t : Team => t.team_id) ∘ toTeamRaw)).Nodup
      have h2 : (l.map ((fun t : Team => t.team_id) ∘ toTeamRaw)) = l.map (fun u => u.team_id) :=
        List.map_congr_left (fun u _ => toTeamRaw_team_id u)
      rw [h2]
      exact hu
    · simp only [he, if_false]
      by_cases hsig : l.any (fun x => x.team_id == "__signin__") = true
      · simp [hsig, hn]
      · simp only [Bool.not_eq_true] at hsig
        simp only [hsig, Bool.false_eq_true, if_false]
        exact mergeMain_uniqueIds cache _ l (mergeFixup_uniqueIds tl l hn)

theorem extendCache_webViewLoaded (t : Team) (c : ThemeData) :
    (extendCache t c).webViewLoaded = t.webViewLoaded := rfl

/-- When no registry record is the `__signin__` placeholder, the fixup step
is the identity. -/
theorem mergeFixup_of_no_signin (tl : List Team) (upd : List TeamUpdate)
    (hs : ∀ x ∈ tl, x.team_id ≠ "__signin__") : mergeFixup tl upd = tl := by
  have hf : tl.find? (fun x => x.team_id == "__signin__") = none :=
    List.find?_eq_none.mpr (fun x hx => by
      simp only [beq_iff_eq]
      exact hs x hx)
  unfold mergeFixup
  rw [hf]

/-- After `mergeMain`, looking up the id of a prior record that has a
matching incoming entry returns exactly the updated-in-place record. -/
theorem mergeMain_find?_of_match (cache : Cache) (l1 : List Team)
    (upd : List TeamUpdate) (t : Team) (u : TeamUpdate)
    (hn : uniqueIds l1) (ht : t ∈ l1)
    (hu : upd.find? (fun x => x.team_id == t.team_id) = some u) :
    (mergeMain cache l1 upd).teamList.find? (fun x => x.team_id == t.team_id)
      = some (extendCache (mergeUpdateKeep u t) (cache u.team_id)) := by
  obtain ⟨extra, h1, h2, h3⟩ := mergeStep2_fold_shape cache upd l1 []
  have hl2 : (mergeStep2 cache l1 upd).1 = l1 ++ extra := h1
  have ht2 : t ∈ (mergeStep2 cache l1 upd).1 := by
    rw [hl2]; exact List.mem_append_left _ ht
  have hn2 : uniqueIds (mergeStep2 cache l1 upd).1 := by
    rw [hl2]; exact h3 hn
  have hft : mergeStep3Fn cache upd t
      = extendCache (mergeUpdateKeep u t) (cache u.team_id) := by
    unfold mergeStep3Fn
    rw [hu]
  have hmem3 : extendCache (mergeUpdateKeep u t) (cache u.team_id)
      ∈ (mergeStep2 cache l1 upd).1.map (mergeStep3Fn cache upd) :=
    hft ▸ List.mem_map_of_mem (mergeStep3Fn cache upd) ht2
  have hn3 : uniqueIds ((mergeStep2 cache l1 upd).1.map (mergeStep3Fn cache upd)) := by
    unfold uniqueIds
    rw [idsOf_map_step3]
    exact hn2
  have huid : u.team_id = t.team_id := by
    have h := List.find?_some hu
    simpa [beq_iff_eq] using h
  have hid : (extendCache (mergeUpdateKeep u t) (cache u.team_id)).team_id
      = t.team_id := by
    simp [extendCache_team_id, mergeUpdateKeep, toTeamRaw, huid]
  have hp : (!(extendCache (mergeUpdateKeep u t) (cache u.team_id)).shouldDelete) = true := by
    simp [extendCache_shouldDelete, mergeUpdateKeep, toTeamRaw]
  have := @find?_id_filter_of_nodup _ _ (fun x => !x.shouldDelete) hn3 hmem3 hp
  rw [hid] at this
  exact this

/-- After `mergeMain`, the id of a prior record without a matching incoming
entry is gone from the registry. -/
theorem mergeMain_find?_of_no_match (cache : Cache) (l1 : List Team)
    (upd : List TeamUpdate) (t : Team)
    (hn : uniqueIds l1) (ht : t ∈ l1)
    (hu : upd.find? (fun x => x.team_id == t.team_id) = none) :
    (mergeMain cache l1 upd).teamList.find? (fun x => x.team_id == t.team_id)
      = none := by
  obtain ⟨extra, h1, h2, h3⟩ := mergeStep2_fold_shape cache upd l1 []
  have hl2 : (mergeStep2 cache l1 upd).1 = l1 ++ extra := h1
  have hupd : ∀ v ∈ upd, v.team_id ≠ t.team_id := by
    intro v hv
    have := List.find?_eq_none.mp hu v hv
    simpa [beq_iff_eq] using this
  apply List.find?_eq_none.mpr
  intro x hx
  obtain ⟨hx3, hpx⟩ := List.mem_filter.mp hx
  obtain ⟨y, hy, rfl⟩ := List.mem_map.mp hx3
  simp only [beq_iff_eq, mergeStep3Fn_team_id]
  intro hxy
  rw [hl2] at hy
  rcases List.mem_append.mp hy with hyl | hyx
  · by_cases hyt : y = t
    · subst hyt
      have : mergeStep3Fn cache upd y = { y with shouldDelete := true } := by
        unfold mergeStep3Fn
        rw [hu]
      rw [this] at hpx
      simp at hpx
    · exact ne_team_id_of_mem_nodup hn hyl ht hyt hxy
  · obtain ⟨u, hu', hyu⟩ := h2 y hyx
    exact hupd u hu' (hyu ▸ hxy)

/-! ### C2: webview preservation across a merge -/

/-- C2 (amended): provided the registry has unique ids and contains no
`__signin__` placeholder, a team with a live webview that is present under
the same `team_id` before and after `mergeTeamList` keeps the identical
`webView` and `webViewLoaded` references; `icons` and `initials` are also
kept whenever the theme cache holds no cached value for that team, and the
remaining fields are replaced by the matching incoming entry's data
whenever the incoming list itself contains no `__signin__` entry. -/
theorem mergeTeamList_preserves_webview (cache : Cache) (tl : List Team)
    (upd : Option (List TeamUpdate)) (t t' : Team) (w : Nat)
    (hn : uniqueIds tl)
    (hs : ∀ x ∈ tl, x.team_id ≠ "__signin__")
    (ht : t ∈ tl) (hw : t.webView = some w)
    (hfind : (mergeTeamList cache tl upd).teamList.find?
        (fun x => x.team_id == t.team_id) = some t') :
    t'.webView = some w ∧
    t'.webViewLoaded = t.webViewLoaded ∧
    ((cache t.team_id).icons = none → t'.icons = t.icons) ∧
    ((cache t.team_id).initials = none → t'.initials = t.initials) ∧
    (∀ l u, upd = some l → (∀ v ∈ l, v.team_id ≠ "__signin__") →
      l.find? (fun x => x.team_id == t.team_id) = some u →
      t'.id = u.id ∧ t'.team_name = u.team_name ∧ t'.team_url = u.team_url) := by
  have hne : tl.isEmpty = false := by
    cases tl with
    | nil => cases ht
    | cons a rest => rfl
  cases upd with
  | none =>
    have : t' = t := by
      have h := find?_id_of_nodup hn ht
      have h2 : (mergeTeamList cache tl none).teamList = tl := rfl
      rw [h2, h] at hfind
      exact (Option.some.inj hfind).symm
    subst this
    exact ⟨hw, rfl, fun _ => rfl, fun _ => rfl, fun l u h => by cases h⟩
  | some l =>
    by_cases hsig : l.any (fun x => x.team_id == "__signin__") = true
    · have hred : (mergeTeamList cache tl (some l)).teamList = tl := by
        unfold mergeTeamList
        simp [hne, hsig]
      have ht' : t' = t := by
        rw [hred, find?_id_of_nodup hn ht] at hfind
        exact (Option.some.inj hfind).symm
      subst ht'
      refine ⟨hw, rfl, fun _ => rfl, fun _ => rfl, ?_⟩
      intro l' u heq hnos _
      obtain rfl : l = l' := Option.some.inj heq
      obtain ⟨v, hv, hvid⟩ := List.any_eq_true.mp hsig
      exact absurd (by simpa [beq_iff_eq] using hvid) (hnos v hv)
    · simp only [Bool.not_eq_true] at hsig
      have hred : mergeTeamList cache tl (some l) = mergeMain cache tl l := by
        unfold mergeTeamList
        simp [hne, hsig, mergeFixup_of_no_signin tl l hs]
      rw [hred] at hfind
      cases hufind : l.find? (fun x => x.team_id == t.team_id) with
      | none =>
        rw [mergeMain_find?_of_no_match cache tl l t hn ht hufind] at hfind
        cases hfind
      | some u =>
        rw [mergeMain_find?_of_match cache tl l t u hn ht hufind] at hfind
        have ht' : t' = extendCache (mergeUpdateKeep u t) (cache u.team_id) :=
          (Option.some.inj hfind).symm
        have huid : u.team_id = t.team_id := by
          have h := List.find?_some hufind
          simpa [beq_iff_eq] using h
        subst ht'
        refine ⟨?_, ?_, ?_, ?_, ?_⟩
        · exact hw
        · rfl
        · intro hi
          rw [← huid] at hi
          simp [extendCache, mergeUpdateKeep, hi]
        · intro hi
          rw [← huid] at hi
          simp [extendCache, mergeUpdateKeep, hi]
        · intro l' u' heq hnos hfl
          obtain rfl : l = l' := Option.some.inj heq
          rw [hufind] at hfl
          obtain rfl : u = u' := Option.some.inj hfl
          exact ⟨rfl, rfl, rfl⟩

/-! ### Demo data used by counterexamples and witnesses -/

/-- An empty theme cache. -/
def cacheEmpty : Cache := fun _ => ⟨none, none, none⟩

/-- A theme cache with cached icons and initials for team `T2`. -/
def cacheT2 : Cache := fun i =>
  if i = "T2" then ⟨some 99, some "ZZ", some 3⟩ else ⟨none, none, none⟩

def updA : TeamUpdate := ⟨"A", "UA", "Team A", "https://a.slack.com/", none⟩

def updT2 : TeamUpdate := ⟨"T2", "U2", "Team Two NEW", "https://t2.slack.com/", none⟩

def updSigninNamed : TeamUpdate := ⟨"__signin__", "S", "New Name", "https://s", none⟩

def updSignOutA : TeamUpdate := ⟨"A", "__signin__", "", "", some "didSignOut"⟩

def signinTeam : Team :=
  ⟨"__signin__", "__signin__", "", "", some 1, some 11, none, none, none, none, false⟩

def teamT2 : Team :=
  ⟨"T2", "U2", "Team Two", "https://t2.slack.com/", some 2, some 22, some 7,
   some "TT", none, none, false⟩

def teamA : Team :=
  ⟨"A", "UA", "Team A", "https://a.slack.com/", some 1, none, none, none, none,
   none, false⟩

/-! ### C1: registry uniqueness across merge sequences -/

/-- C1 (amended): for every sequence of `mergeTeamList` calls starting from
a registry with unique `team_id`s, provided every non-null incoming list
has pairwise-distinct `team_id`s, the resulting registry never contains two
records with the same `team_id` and never more than one `__signin__`
record. -/
theorem runMerges_unique_team_ids (tl : List Team)
    (calls : List (Cache × Option (List TeamUpdate)))
    (h0 : uniqueIds tl)
    (hc : ∀ c ∈ calls, uniqueUpdateIds (c.2.getD [])) :
    uniqueIds (runMerges tl calls) ∧
    (idsOf (runMerges tl calls)).count "__signin__" ≤ 1 := by
  have main : uniqueIds (runMerges tl calls) := by
    induction calls generalizing tl with
    | nil => exact h0
    | cons c cs ih =>
      have h1 : uniqueIds (mergeTeamList c.1 tl c.2).teamList :=
        mergeTeamList_uniqueIds c.1 tl c.2 h0 (hc c (List.mem_cons_self c cs))
      have hc' : ∀ x ∈ cs, uniqueUpdateIds (x.2.getD []) := fun x hx =>
        hc x (List.mem_cons_of_mem c hx)
      simpa [runMerges, List.foldl_cons] using
        ih (mergeTeamList c.1 tl c.2).teamList h1 hc'
  exact ⟨main, List.nodup_iff_count_le_one.mp main "__signin__"⟩

/-- C1 counterexample: from the empty registry (trivially unique), a single
`mergeTeamList` call whose incoming list repeats `team_id` `"A"` is adopted
verbatim by the bootstrap branch, leaving the registry with two records
sharing a `team_id` — the claim as stated (for arbitrary incoming lists)
is false. -/
theorem runMerges_duplicate_adoption :
    uniqueIds ([] : List Team) ∧
    ¬ uniqueIds (runMerges [] [(cacheEmpty, some [updA, updA])]) := by
  constructor
  · decide
  · decide

/-- C1 witness: a concrete two-call sequence satisfying the hypotheses. -/
theorem runMerges_unique_team_ids_witness :
    uniqueIds [teamA] ∧
    uniqueIds (runMerges [teamA]
      [(cacheEmpty, some [updT2]), (cacheEmpty, none)]) :=
  ⟨by decide,
   (runMerges_unique_team_ids [teamA]
     [(cacheEmpty, some [updT2]), (cacheEmpty, none)]
     (by decide) (by decide)).1⟩

/-- The record the merge produces for `T2` out of registry
`[teamA, teamT2]` and incoming `[updT2]` under the empty cache. -/
def mergedT2 : Team :=
  ⟨"T2", "U2", "Team Two NEW", "https://t2.slack.com/", some 2, some 22,
   some 7, some "TT", none, none, false⟩

/-- C2 counterexample: with registry `[signinTeam, teamT2]` (where `teamT2`
holds live webview 2) and incoming `[updT2]`, the signin fixup collapses
the registry onto the first incoming entry and copies the placeholder's
webview 1 over it, so the returned `T2` record does not keep its own
webview — the claim as stated (for every registry) is false. -/
theorem mergeTeamList_fixup_clobbers_webview :
    teamT2 ∈ [signinTeam, teamT2] ∧ teamT2.webView = some 2 ∧
    ((mergeTeamList cacheEmpty [signinTeam, teamT2] (some [updT2])).teamList.map
      (fun r => (r.team_id, r.webView))) = [("T2", some 1)] ∧
    some 2 ≠ (some 1 : Option Nat) := by
  refine ⟨by decide, rfl, by decide, by decide⟩

/-- C2 witness: the amended theorem applied to a signin-free registry. -/
theorem mergeTeamList_preserves_webview_witness :
    mergedT2.webView = some 2 ∧ mergedT2.webViewLoaded = teamT2.webViewLoaded ∧
    mergedT2.icons = teamT2.icons :=
  have h := mergeTeamList_preserves_webview cacheEmpty [teamA, teamT2]
    (some [updT2]) teamT2 mergedT2 2 (by decide) (by decide) (by decide)
    (by decide) (by decide)
  ⟨h.1, h.2.1, h.2.2.1 (by decide)⟩

/-! ### C3: dedup suppression and idempotent reconcile -/

/-- C3 (amended): when the registry is non-empty, the one-shot merge flag
is set, the sorted incoming `team_id` list equals the sorted registry
`team_id` list, and no incoming entry carries the `__signin__` user id
(which would trigger the sign-out collapse or the noise suppression
instead), `shouldMergeTeamList` answers `false`, `presentAvailableTeams`
skips the merge leaving the registry unchanged with no disposals, and
running it twice in a row changes nothing either; on the very first merge
ever attempted (`haveMergedTeamListOnce` still unset) the merge always
runs. -/
theorem presentAvailableTeams_dedup_skip (cache : Cache)
    (st : ReconcilerState) (l : List TeamUpdate)
    (h1 : st.haveMergedTeamListOnce = true)
    (h2 : st.teamList ≠ [])
    (h3 : sortStrings (st.teamList.map (fun x => x.team_id)) =
          sortStrings (l.map (fun x => x.team_id)))
    (h4 : ∀ u ∈ l, u.id ≠ "__signin__") :
    shouldMergeTeamList st (some l) = (false, true) ∧
    presentAvailableTeams cache st (some l) = ⟨st, [], [], false⟩ ∧
    presentAvailableTeams cache
      (presentAvailableTeams cache st (some l)).state (some l)
      = ⟨st, [], [], false⟩ ∧
    (∀ st2 upd2, st2.haveMergedTeamListOnce = false →
      (shouldMergeTeamList st2 upd2).1 = true) := by
  have hie : st.teamList.isEmpty = false := by
    cases h : st.teamList with
    | nil => exact absurd h h2
    | cons a rest => rfl
  have hsm : shouldMergeTeamList st (some l) = (false, true) := by
    unfold shouldMergeTeamList
    simp [hie, h1, h3]
  have hany : (l.any fun x => x.id == "__signin__") = false := by
    apply List.any_eq_false.mpr
    intro u hu
    simp only [beq_iff_eq]
    exact h4 u hu
  have hst : (⟨st.teamList, true⟩ : ReconcilerState) = st := by
    rw [← h1]
  have hpres : presentAvailableTeams cache st (some l) = ⟨st, [], [], false⟩ := by
    cases l with
    | nil =>
      unfold presentAvailableTeams
      simp [hany, hsm, hst, hie]
    | cons u us =>
      have hu : (u.id == "__signin__") = false := by
        simp only [beq_eq_false_iff_ne, ne_eq]
        exact h4 u (List.mem_cons_self u us)
      cases us with
      | nil =>
        unfold presentAvailableTeams
        simp [hany, hsm, hst, hie, hu]
      | cons v vs =>
        unfold presentAvailableTeams
        simp [hany, hsm, hst, hie]
  refine ⟨hsm, hpres, ?_, ?_⟩
  · rw [hpres]
    exact hpres
  · intro st2 upd2 h0
    unfold shouldMergeTeamList
    by_cases he2 : st2.teamList.isEmpty <;> simp [he2, h0]

/-- C3 counterexample: two premise-satisfying inputs on which the claim
fails.  First, with registry `[teamA]` (flag set) and incoming
`[updSignOutA]` — whose `team_id` set equals the registry's — the sign-out
collapse empties the registry and disposes webview 1 instead of skipping.
Second, with an empty registry, an empty incoming list and the flag set,
`shouldMergeTeamList` returns `true`, not `false`. -/
theorem presentAvailableTeams_dedup_cex :
    sortStrings ((⟨[teamA], true⟩ : ReconcilerState).teamList.map
        (fun x => x.team_id)) =
      sortStrings ([updSignOutA].map (fun x => x.team_id)) ∧
    (presentAvailableTeams cacheEmpty ⟨[teamA], true⟩
      (some [updSignOutA])).state.teamList = [] ∧
    (presentAvailableTeams cacheEmpty ⟨[teamA], true⟩
      (some [updSignOutA])).toDispose = [1] ∧
    (shouldMergeTeamList ⟨[], true⟩ (some [])).1 = true := by
  refine ⟨by decide, by decide, by decide, by decide⟩

/-- C3 witness: a concrete skip instance for the amended theorem. -/
theorem presentAvailableTeams_dedup_skip_witness :
    presentAvailableTeams cacheEmpty ⟨[teamA], true⟩ (some [updA])
      = ⟨⟨[teamA], true⟩, [], [], false⟩ :=
  (presentAvailableTeams_dedup_skip cacheEmpty ⟨[teamA], true⟩ [updA]
    rfl (by decide) (by decide) (by decide)).2.1

/-! ### C4: placeholder fixup preserves the in-flight surface -/

/-- Step 3 keeps every record whose id has a matching incoming entry. -/
theorem mergeStep3Fn_shouldDelete_of_match (cache : Cache)
    (upd : List TeamUpdate) (y : Team)
    (hy : (upd.find? (fun x => x.team_id == y.team_id)).isSome) :
    (mergeStep3Fn cache upd y).shouldDelete = false := by
  unfold mergeStep3Fn
  cases h : upd.find? (fun x => x.team_id == y.team_id) with
  | none => rw [h] at hy; cases hy
  | some u => simp [extendCache_shouldDelete, mergeUpdateKeep, toTeamRaw]

/-- When every record of the registry handed to `mergeMain` has a matching
incoming entry, nothing is marked for deletion and nothing is disposed. -/
theorem mergeMain_toDispose_nil (cache : Cache) (l1 : List Team)
    (upd : List TeamUpdate)
    (hall : ∀ y ∈ l1, ∃ u ∈ upd, y.team_id = u.team_id) :
    (mergeMain cache l1 upd).toDispose = [] := by
  obtain ⟨extra, h1, h2, _⟩ := mergeStep2_fold_shape cache upd l1 []
  have hdel : ∀ y ∈ (mergeStep2 cache l1 upd).1,
      ((upd.find? (fun x => x.team_id == y.team_id)).isSome) := by
    intro y hy
    rw [show (mergeStep2 cache l1 upd).1 = l1 ++ extra from h1] at hy
    rcases List.mem_append.mp hy with hyl | hyx
    · obtain ⟨u, hu, hyu⟩ := hall y hyl
      exact List.find?_isSome.mpr ⟨u, hu, by simp [beq_iff_eq, hyu]⟩
    · obtain ⟨u, hu, hyu⟩ := h2 y hyx
      exact List.find?_isSome.mpr ⟨u, hu, by simp [beq_iff_eq, hyu]⟩
  have hnil : (((mergeStep2 cache l1 upd).1.map
      (mergeStep3Fn cache upd)).filter (fun t => t.shouldDelete)) = [] := by
    apply List.filter_eq_nil_iff.mpr
    intro a ha
    obtain ⟨y, hy, rfl⟩ := List.mem_map.mp ha
    have := mergeStep3Fn_shouldDelete_of_match cache upd y (hdel y hy)
    simp [this]
  show ((((mergeStep2 cache l1 upd).1.map
      (mergeStep3Fn cache upd)).filter
      (fun t => t.shouldDelete)).filterMap (fun t => t.webView)) = []
  rw [hnil]
  rfl

/-- `mergeMain` over a singleton registry whose record matches the first
incoming entry returns that record updated in place at the head. -/
theorem mergeMain_singleton_head (cache : Cache) (m : Team)
    (u0 : TeamUpdate) (rest : List TeamUpdate)
    (hid : m.team_id = u0.team_id) :
    ∃ tlTail, (mergeMain cache [m] (u0 :: rest)).teamList
      = extendCache (mergeUpdateKeep u0 m) (cache u0.team_id) :: tlTail := by
  obtain ⟨extra, h1, _, _⟩ := mergeStep2_fold_shape cache (u0 :: rest) [m] []
  have hfm : mergeStep3Fn cache (u0 :: rest) m
      = extendCache (mergeUpdateKeep u0 m) (cache u0.team_id) := by
    unfold mergeStep3Fn
    simp [List.find?_cons, hid]
  refine ⟨(extra.map (mergeStep3Fn cache (u0 :: rest))).filter
    (fun t => !t.shouldDelete), ?_⟩
  show (((mergeStep2 cache [m] (u0 :: rest)).1.map
      (mergeStep3Fn cache (u0 :: rest))).filter (fun t => !t.shouldDelete)) = _
  rw [show (mergeStep2 cache [m] (u0 :: rest)).1 = [m] ++ extra from h1]
  simp only [List.singleton_append, List.map_cons, hfm]
  rw [List.filter_cons_of_pos]
  simp [extendCache_shouldDelete, mergeUpdateKeep, toTeamRaw]

/-- C4 (amended): when the registry is exactly the `__signin__` placeholder
and the incoming list is non-empty and itself free of `__signin__`
`team_id`s, the merge replaces the placeholder with the first incoming
entry carrying over the placeholder's `webView` and `webViewLoaded`
(identical references, nothing disposed); `icons` and `initials` are also
carried over whenever the theme cache holds no cached value for the new
team. -/
theorem mergeTeamList_signin_fixup (cache : Cache) (s : Team)
    (u0 : TeamUpdate) (rest : List TeamUpdate)
    (hsid : s.team_id = "__signin__")
    (hns : ∀ v ∈ u0 :: rest, v.team_id ≠ "__signin__") :
    ∃ r tlTail,
      (mergeTeamList cache [s] (some (u0 :: rest))).teamList = r :: tlTail ∧
      r.webView = s.webView ∧
      r.webViewLoaded = s.webViewLoaded ∧
      r.team_id = u0.team_id ∧
      r.team_name = u0.team_name ∧
      ((cache u0.team_id).icons = none → r.icons = s.icons) ∧
      ((cache u0.team_id).initials = none → r.initials = s.initials) ∧
      (mergeTeamList cache [s] (some (u0 :: rest))).toDispose = [] := by
  have hsig : ((u0 :: rest).any fun x => x.team_id == "__signin__") = false := by
    apply List.any_eq_false.mpr
    intro v hv
    simp only [beq_iff_eq]
    exact hns v hv
  have hfix : mergeFixup [s] (u0 :: rest)
      = [{ toTeamRaw u0 with
            webView := s.webView
            webViewLoaded := s.webViewLoaded
            icons := s.icons
            initials := s.initials }] := by
    unfold mergeFixup
    have hf : ([s].find? (fun x => x.team_id == "__signin__")) = some s := by
      simp [List.find?_cons, hsid]
    rw [hf]
  have hred : mergeTeamList cache [s] (some (u0 :: rest))
      = mergeMain cache (mergeFixup [s] (u0 :: rest)) (u0 :: rest) := by
    unfold mergeTeamList
    simp [hsig]
  rw [hred, hfix]
  obtain ⟨tlTail, hhead⟩ := mergeMain_singleton_head cache
    { toTeamRaw u0 with
        webView := s.webView
        webViewLoaded := s.webViewLoaded
        icons := s.icons
        initials := s.initials } u0 rest rfl
  refine ⟨extendCache (mergeUpdateKeep u0
      { toTeamRaw u0 with
          webView := s.webView
          webViewLoaded := s.webViewLoaded
          icons := s.icons
          initials := s.initials }) (cache u0.team_id),
    tlTail, hhead, rfl, rfl, rfl, rfl, ?_, ?_, ?_⟩
  · intro hi
    simp [extendCache, mergeUpdateKeep, toTeamRaw, hi]
  · intro hi
    simp [extendCache, mergeUpdateKeep, toTeamRaw, hi]
  · apply mergeMain_toDispose_nil
    intro y hy
    simp only [List.mem_singleton] at hy
    subst hy
    exact ⟨u0, List.mem_cons_self u0 rest, rfl⟩

/-- C4 counterexample: with registry exactly the placeholder and incoming
list `[updSigninNamed]` (non-empty, but its entry's `team_id` is itself
`"__signin__"`), the merge returns the registry unchanged instead of
replacing the placeholder with `incoming[0]` — the claim as stated (for
every non-empty incoming list) is false. -/
theorem mergeTeamList_signin_fixup_cex :
    (mergeTeamList cacheEmpty [signinTeam] (some [updSigninNamed])).teamList
      = [signinTeam] ∧
    signinTeam.team_name ≠ updSigninNamed.team_name := by
  refine ⟨by decide, by decide⟩

/-- C4 witness: the amended theorem at the concrete bootstrap handshake. -/
theorem mergeTeamList_signin_fixup_witness :
    ∃ r tlTail,
      (mergeTeamList cacheEmpty [signinTeam] (some [updT2])).teamList
        = r :: tlTail ∧
      r.webView = signinTeam.webView ∧
      r.webViewLoaded = signinTeam.webViewLoaded ∧
      r.team_id = updT2.team_id ∧
      r.team_name = updT2.team_name ∧
      ((cacheEmpty updT2.team_id).icons = none → r.icons = signinTeam.icons) ∧
      ((cacheEmpty updT2.team_id).initials = none →
        r.initials = signinTeam.initials) ∧
      (mergeTeamList cacheEmpty [signinTeam] (some [updT2])).toDispose = [] :=
  mergeTeamList_signin_fixup cacheEmpty signinTeam updT2 [] rfl (by decide)

/-! ### C5: badge aggregation is a pure fold -/

/-- The encoding of a numeric status in the loop accumulator: `0` (online)
is JS-falsy and is replaced by `-1`. -/
def natToStatusInt (n : Nat) : Int := if n = 0 then -1 else (n : Int)

theorem natToStatusInt_max (a b : Nat) :
    natToStatusInt (Nat.max a b) = jsMaxInt (natToStatusInt a) (natToStatusInt b) := by
  unfold natToStatusInt jsMaxInt
  simp only [Nat.max_def]
  split_ifs <;> omega

/-- The per-team status contribution of the loop is `natToStatusInt` of the
team's status. -/
theorem badgeStep_status (t : Team) :
    (match t.badgeInfo with
     | some b => if b.connectionStatus = 0 then -1 else (b.connectionStatus : Int)
     | none => (-1 : Int)) = natToStatusInt (statusOf t) := by
  cases hb : t.badgeInfo <;> simp [natToStatusInt, statusOf, hb]

/-- The badge loop computes the two sums and the encoded running maximum. -/
theorem updateBadgeTotals_go (tl : List Team) :
    ∀ (u h n : Nat),
      tl.foldl badgeStep (u, h, natToStatusInt n)
        = (u + sumUnread tl, h + sumUnreadHighlights tl,
           natToStatusInt ((tl.map statusOf).foldl Nat.max n)) := by
  induction tl with
  | nil =>
    intro u h n
    simp [sumUnread, sumUnreadHighlights]
  | cons t ts ih =>
    intro u h n
    rw [List.foldl_cons]
    have hstep : badgeStep (u, h, natToStatusInt n) t
        = ((match t.badgeInfo with
            | some b => u + b.unread
            | none => u),
           (match t.badgeInfo with
            | some b => h + b.unreadHighlights
            | none => h),
           natToStatusInt (Nat.max n (statusOf t))) := by
      unfold badgeStep
      rw [natToStatusInt_max]
      rw [badgeStep_status]
    rw [hstep]
    cases hb : t.badgeInfo with
    | none =>
      rw [ih]
      simp [sumUnread, sumUnreadHighlights, hb]
    | some b =>
      rw [ih]
      simp only [List.map_cons, List.foldl_cons, sumUnread,
        sumUnreadHighlights, hb, List.sum_cons, Prod.mk.injEq]
      refine ⟨by omega, by omega, trivial⟩

theorem foldl_natMax_le (l : List Nat) :
    ∀ n, n ≤ 2 → (∀ x ∈ l, x ≤ 2) → l.foldl Nat.max n ≤ 2 := by
  induction l with
  | nil => intro n hn _; simpa using hn
  | cons x xs ih =>
    intro n hn hall
    rw [List.foldl_cons]
    exact ih (Nat.max n x)
      (Nat.max_le.mpr ⟨hn, hall x (List.mem_cons_self x xs)⟩)
      (fun y hy => hall y (List.mem_cons_of_mem x hy))

/-- C5: the global badge value is a pure fold over the team list — the sum
of `unread`, the sum of `unread_highlights`, and the name of the worst
(maximum) connection status under online(0) < connecting(1) < offline(2),
provided every team's status is one of those three values. -/
theorem globalBadgeCount_fold (tl : List Team)
    (hst : ∀ t ∈ tl, statusOf t ≤ 2) :
    globalBadgeCount tl
      = (sumUnreadHighlights tl, sumUnread tl, statusName (worstStatus tl)) := by
  have htot : updateBadgeTotals tl
      = (sumUnread tl, sumUnreadHighlights tl, natToStatusInt (worstStatus tl)) := by
    have h := updateBadgeTotals_go tl 0 0 0
    simpa [updateBadgeTotals, natToStatusInt, worstStatus] using h
  have hW : worstStatus tl ≤ 2 := by
    apply foldl_natMax_le
    · decide
    · intro x hx
      obtain ⟨t, ht, rfl⟩ := List.mem_map.mp hx
      exact hst t ht
  unfold globalBadgeCount
  rw [htot]
  have hname : (sortableConnStatusName (natToStatusInt (worstStatus tl))).getD "online"
      = statusName (worstStatus tl) := by
    interval_cases h : worstStatus tl <;> decide
  rw [hname]

def teamBadgeOnline : Team :=
  ⟨"X", "UX", "Ex", "https://x", none, none, none, none, none,
   some ⟨5, 2, 0⟩, false⟩

def teamBadgeOffline : Team :=
  ⟨"Y", "UY", "Why", "https://y", none, none, none, none, none,
   some ⟨0, 0, 2⟩, false⟩

/-- C5 witness: the claim's example — badge states `(2, 5, online)` and
`(0, 0, offline)` aggregate to `(2, 5, offline)`. -/
theorem globalBadgeCount_fold_witness :
    globalBadgeCount [teamBadgeOnline, teamBadgeOffline] = (2, 5, "offline") :=
  (globalBadgeCount_fold [teamBadgeOnline, teamBadgeOffline]
    (by decide)).trans (by decide)

/-! ### C6: primary selection idempotence -/

/-- C6 (amended): selecting the team that is already primary is a no-op
except that the loading screen is unconditionally hidden
(`loadingScreen.hideAll()` runs before the identity check): the state is
unchanged apart from `screen := hidden`, with no team-changed notification,
no show/focus, and no re-subscription of the crash or focus-follow
listeners; consequently two consecutive `makeTeamPrimary(T)` calls produce
exactly one set of switch effects, the second call emitting only
`hideAll` and leaving the state untouched. -/
theorem makeTeamPrimary_idempotent (st : PrimaryState) (t : Team) (wv : Nat)
    (hw : t.webView = some wv) :
    (∀ p, st.primaryTeam = some p → p.team_id = t.team_id →
      makeTeamPrimary st (some t)
        = some ({ st with screen := Screen.hidden }, [Effect.hideAll])) ∧
    (∃ st1 e1, makeTeamPrimary st (some t) = some (st1, e1) ∧
      makeTeamPrimary st1 (some t) = some (st1, [Effect.hideAll])) := by
  constructor
  · intro p hp hid
    unfold makeTeamPrimary
    rw [hp]
    simp [Option.any_some, hid]
  · by_cases hp : st.primaryTeam.any (fun p => p.team_id == t.team_id) = true
    · refine ⟨{ st with screen := Screen.hidden }, [Effect.hideAll], ?_, ?_⟩
      · simp [makeTeamPrimary, hp]
      · have hp1 : ({ st with screen := Screen.hidden } : PrimaryState).primaryTeam.any
            (fun p => p.team_id == t.team_id) = true := hp
        simp [makeTeamPrimary, hp1]
    · simp only [Bool.not_eq_true] at hp
      refine ⟨⟨some t, Screen.hidden, some ⟨t.team_id, wv⟩⟩,
        [Effect.hideAll, Effect.teamChanged t.team_name (some wv),
         Effect.subscribeFocus t.team_id, Effect.subscribeCrash wv] ++
        (match st.subs with
         | some s => [Effect.disposeSubs s.teamId]
         | none => []) ++
        [Effect.showWebView wv, Effect.updateBadge t.team_id], ?_, ?_⟩
      · simp [makeTeamPrimary, hp, hw]
      · simp [makeTeamPrimary]

/-- C6 counterexample: with `teamA` already primary (and the loading screen
showing), re-selecting `teamA` is not effect-free — it hides the loading
screen — so the claim's "returns without side effects" is false as
stated. -/
theorem makeTeamPrimary_not_effect_free :
    (⟨some teamA, Screen.trying, some ⟨"A", 1⟩⟩ : PrimaryState).primaryTeam
      = some teamA ∧
    makeTeamPrimary ⟨some teamA, Screen.trying, some ⟨"A", 1⟩⟩ (some teamA)
      ≠ some (⟨some teamA, Screen.trying, some ⟨"A", 1⟩⟩, []) ∧
    makeTeamPrimary ⟨some teamA, Screen.trying, some ⟨"A", 1⟩⟩ (some teamA)
      = some (⟨some teamA, Screen.hidden, some ⟨"A", 1⟩⟩, [Effect.hideAll]) := by
  refine ⟨rfl, by decide, by decide⟩

/-- C6 witness: the amended theorem at a concrete state. -/
theorem makeTeamPrimary_idempotent_witness :
    ∃ st1 e1,
      makeTeamPrimary ⟨none, Screen.trying, none⟩ (some teamA) = some (st1, e1) ∧
      makeTeamPrimary st1 (some teamA) = some (st1, [Effect.hideAll]) :=
  (makeTeamPrimary_idempotent ⟨none, Screen.trying, none⟩ teamA 1 rfl).2

/-! ### C7: network transitions clear the primary team and pick a screen -/

/-- C7 (code bug): on any transition away from online the handler does
clear the primary team (dropping the primary slot's subscriptions) and on
a transition to online it re-invokes team presentation — but the
slack-down branch is unreachable: `this.networkStatus.reason` is an
uncalled method reference, never strictly equal to `'slackDown'`, so the
code always shows the offline screen, even at the claim's own trigger
(browser online, probe failed with reason `slackDown`), where the
claim/spec-intended rule shows the slack-down screen. -/
theorem handleNetworkStatus_transitions (st : PrimaryState) (net : NetInfo) :
    ((handleNetworkStatus st net false).1.primaryTeam = none ∧
     (handleNetworkStatus st net false).1.subs = none ∧
     (handleNetworkStatus st net false).1.screen = Screen.offline ∧
     (handleNetworkStatus st net false).2 =
       (match st.subs with
        | some s => [Effect.disposeSubs s.teamId]
        | none => []) ++
       [Effect.showTrying, Effect.teamChangedNull] ++
       [Effect.showOffline]) ∧
    handleNetworkStatus st net true = (st, [Effect.presentTeams]) ∧
    (handleNetworkStatusIntended ⟨none, Screen.trying, none⟩
        ⟨true, some "slackDown"⟩ false).1.screen = Screen.slackDown ∧
    (handleNetworkStatus ⟨none, Screen.trying, none⟩
        ⟨true, some "slackDown"⟩ false).1.screen = Screen.offline := by
  refine ⟨⟨?_, ?_, ?_, ?_⟩, rfl, rfl, rfl⟩ <;>
    simp [handleNetworkStatus, makeTeamPrimary, jsStrictEqStr,
      networkStatusReasonProp]

/-! ### C8: remote code execution outcome -/

/-- No settled value is ever a rejection: the trailing catch replaces any
upstream error with a `null` resolution. -/
theorem evalSettle_ne_rejected (o : Option IpcMessage) (e : String) :
    evalSettle o ≠ EvalOutcome.rejected e := by
  cases o with
  | none => simp [evalSettle]
  | some m =>
    cases hargs : m.args with
    | nil => simp [evalSettle, hargs]
    | cons a rest =>
      simp only [evalSettle, hargs, evalRespSettled]
      cases hfm : evalRespFlatMap a with
      | error err => simp
      | ok res => cases res <;> simp

/-- C8 (amended): the future returned by `executeJavaScript` is decided
only by responses carrying the matching correlation id: a non-matching
message is ignored; when no correlated response arrives within the
10-second timeout the future silently resolves to `null`; the future never
rejects (the trailing catch swallows every upstream error, not only the
timeout); and the first correlated in-time response resolves to `null`
when it carries an error, else resolves with the JSON-parse of its
result. -/
theorem evalOutcome_correlated (msgId : String) (pre post : List IpcMessage)
    (m : IpcMessage) :
    (∀ m0, matchesEvalResp msgId m0 = false →
      evalOutcome msgId (m0 :: pre) = evalOutcome msgId pre) ∧
    ((∀ x ∈ pre, matchesEvalResp msgId x = true → 10000 ≤ x.time) →
      evalOutcome msgId pre = EvalOutcome.resolvedNull) ∧
    (∀ e, evalOutcome msgId pre ≠ EvalOutcome.rejected e) ∧
    ((∀ x ∈ pre, matchesEvalResp msgId x = true → 10000 ≤ x.time) →
      matchesEvalResp msgId m = true → m.time < 10000 →
      ∀ a rest, m.args = a :: rest →
        ((∀ e, a.error = some e →
          evalOutcome msgId (pre ++ m :: post) = EvalOutcome.resolvedNull) ∧
         (a.error = none → ∀ s, a.result = some s →
          evalOutcome msgId (pre ++ m :: post) = EvalOutcome.resolvedParsed s))) := by
  have hnone : ∀ (l : List IpcMessage),
      (∀ x ∈ l, matchesEvalResp msgId x = true → 10000 ≤ x.time) →
      ((l.filter (fun x => x.time < 10000)).find? (matchesEvalResp msgId))
        = none := by
    intro l hl
    apply List.find?_eq_none.mpr
    intro x hx
    obtain ⟨hmem, ht⟩ := List.mem_filter.mp hx
    intro hmatch
    have := hl x hmem hmatch
    simp only [decide_eq_true_eq] at ht
    omega
  refine ⟨?_, ?_, ?_, ?_⟩
  · intro m0 hm0
    unfold evalOutcome
    by_cases ht : m0.time < 10000
    · rw [List.filter_cons_of_pos (by simpa using ht)]
      rw [List.find?_cons_of_neg _ (by simp [hm0])]
    · rw [List.filter_cons_of_neg (by simpa using ht)]
  · intro hpre
    unfold evalOutcome
    rw [hnone pre hpre]
    rfl
  · intro e
    exact evalSettle_ne_rejected _ e
  · intro hpre hm htm a rest hargs
    have hsplit : ((pre ++ m :: post).filter (fun x => x.time < 10000)).find?
        (matchesEvalResp msgId) = some m := by
      rw [List.filter_append, List.find?_append, hnone pre hpre,
        List.filter_cons_of_pos (by simpa using htm),
        List.find?_cons_of_pos _ hm]
      rfl
    constructor
    · intro e he
      unfold evalOutcome
      rw [hsplit]
      simp [evalSettle, hargs, evalRespSettled, evalRespFlatMap, he]
    · intro he s hs
      unfold evalOutcome
      rw [hsplit]
      simp [evalSettle, hargs, evalRespSettled, evalRespFlatMap, he, hs]

def respT2 : EvalResponse := ⟨"cid-1", some "\x7bok\x7d", none⟩

def msgRespT2 : IpcMessage := ⟨"eval-async", [respT2], 250⟩

def respErr : EvalResponse := ⟨"cid-2", none, some "boom"⟩

def msgErr : IpcMessage := ⟨"eval-async", [respErr], 250⟩

/-- C8 counterexample: a correlated, in-time response carrying an error
does not reject the future.  `flatMap` does throw, but the trailing
`.catch(() => rx.Observable.return(null))` sits downstream of it — not
only of the timeout — so the future resolves to `null`, refuting the
claim's "rejecting when the response carries an error". -/
theorem evalOutcome_error_resolves_null :
    matchesEvalResp "cid-2" msgErr = true ∧
    msgErr.time < 10000 ∧
    respErr.error = some "boom" ∧
    evalOutcome "cid-2" [msgErr] = EvalOutcome.resolvedNull ∧
    evalOutcome "cid-2" [msgErr] ≠ EvalOutcome.rejected "boom" := by
  refine ⟨by decide, by decide, rfl, by decide, by decide⟩

/-- C8 witness: a correlated in-time response with a truthy result
resolves with its JSON-parsed result. -/
theorem evalOutcome_correlated_witness :
    evalOutcome "cid-1" [msgRespT2] = EvalOutcome.resolvedParsed "\x7bok\x7d" :=
  ((evalOutcome_correlated "cid-1" [] [] msgRespT2).2.2.2
    (by decide) (by decide) (by decide) respT2 [] rfl).2 rfl "\x7bok\x7d" rfl

/-! ### C9: crash handling reloads except for plugin crashes -/

/-- Whether a crash event is a plugin crash. -/
def isPluginCrash : CrashKind → Bool
  | CrashKind.plugin _ _ => true
  | _ => false

/-- The string of a plugin crash starts with `"Plugin"`, whatever the
plugin name and version. -/
theorem jsStartsWith_plugin (n v : String) :
    jsStartsWith ("Plugin " ++ n ++ " " ++ v) "Plugin" = true := by
  unfold jsStartsWith
  have hd : ("Plugin " ++ n ++ " " ++ v).data
      = "Plugin ".data ++ (n.data ++ (" ".data ++ v.data)) := by
    simp [String.data_append]
  rw [hd]
  rw [List.take_append_of_le_length (by decide)]
  decide

/-- C9: for every crash event delivered to the primary-team crash handler
— renderer, GPU, plugin, or load timeout — a full host-window reload is
issued if and only if the crash kind does not start with `"Plugin"`,
i.e. exactly the non-plugin crashes force a reload and plugin crashes are
ignored outright (no actions at all). -/
theorem handleWebViewCrash_reload (kind : CrashKind) (teamUrl : String)
    (dialogResponse : Nat) :
    ((HostAction.sendReload ∈
        handleWebViewCrash (crashKindString kind) teamUrl dialogResponse)
      ↔ isPluginCrash kind = false) ∧
    (isPluginCrash kind = true →
      handleWebViewCrash (crashKindString kind) teamUrl dialogResponse = []) := by
  cases kind with
  | plugin n v =>
    constructor
    · simp [handleWebViewCrash, crashKindString, jsStartsWith_plugin n v,
        isPluginCrash]
    · intro _
      simp [handleWebViewCrash, crashKindString, jsStartsWith_plugin n v]
  | renderer =>
    constructor
    · unfold handleWebViewCrash crashKindString
      by_cases hu : (teamUrl == "https://tinyspeck.slack.com/") = true
      · simp [hu, isPluginCrash, jsStartsWith]
      · simp only [Bool.not_eq_true] at hu
        simp [hu, isPluginCrash, jsStartsWith]
    · intro h
      cases h
  | gpu =>
    constructor
    · unfold handleWebViewCrash crashKindString
      by_cases hu : (teamUrl == "https://tinyspeck.slack.com/") = true
      · simp [hu, isPluginCrash, jsStartsWith]
      · simp only [Bool.not_eq_true] at hu
        simp [hu, isPluginCrash, jsStartsWith]
    · intro h
      cases h
  | loadTimeout =>
    constructor
    · unfold handleWebViewCrash crashKindString
      by_cases hu : (teamUrl == "https://tinyspeck.slack.com/") = true
      · simp [hu, isPluginCrash, jsStartsWith]
      · simp only [Bool.not_eq_true] at hu
        simp [hu, isPluginCrash, jsStartsWith]
    · intro h
      cases h

/-- C9 witness: a renderer crash on an ordinary team reloads the window. -/
theorem handleWebViewCrash_reload_witness :
    HostAction.sendReload ∈
      handleWebViewCrash (crashKindString CrashKind.renderer)
        "https://a.slack.com/" 0 :=
  (handleWebViewCrash_reload CrashKind.renderer "https://a.slack.com/" 0).1.mpr
    rfl

/-! ### C10: initials of a team name -/

/-- The initials loop appends, to the accumulator, the first character of
each non-empty word. -/
theorem initials_foldl_eq (ws : List String) :
    ∀ acc : List Char,
      ws.foldl (fun acc w => if w.length < 1 then acc else acc ++ w.data.take 1) acc
        = acc ++ ((ws.filter (fun w => !(w == ""))).map
            (fun w => w.data.take 1)).flatten := by
  induction ws with
  | nil => intro acc; simp
  | cons w rest ih =>
    intro acc
    rw [List.foldl_cons]
    by_cases hw : w = ""
    · subst hw
      rw [if_pos (by decide)]
      rw [ih acc]
      simp
    · have hlen : ¬ ("".length > w.length ∨ w.length < 1) := by
        intro hcon
        rcases hcon with h | h
        · simp at h
        · apply hw
          cases hww : w with
          | mk data =>
            cases data with
            | nil => rfl
            | cons c cs =>
              rw [hww] at h
              simp [String.length] at h
      have hlen1 : ¬ (w.length < 1) := fun h => hlen (Or.inr h)
      rw [if_neg hlen1]
      rw [ih (acc ++ w.data.take 1)]
      have hwfalse : (w == "") = false := by
        simp only [beq_eq_false_iff_ne, ne_eq]
        exact hw
      simp [hwfalse, List.append_assoc]

/-- Reduction of `getInitialsOfName` on a non-empty name. -/
theorem getInitialsOfName_some_ne (s : String) (maxLength : Nat)
    (hs : (s == "") = false) :
    getInitialsOfName (some s) maxLength
      = String.mk (((s.splitOn " ").foldl
          (fun acc w => if w.length < 1 then acc else acc ++ w.data.take 1)
          []).take maxLength) := by
  simp [getInitialsOfName, hs]

/-- C10: `getInitialsOfName` returns the empty string for a missing or
empty name; otherwise it returns the concatenation of the first character
of each non-empty space-separated word, truncated to `maxLength`
characters; in all cases the result never exceeds `maxLength` characters. -/
theorem getInitialsOfName_spec (name : Option String) (maxLength : Nat) :
    (getInitialsOfName none maxLength = "") ∧
    (getInitialsOfName (some "") maxLength = "") ∧
    (∀ s, name = some s → s ≠ "" →
      (getInitialsOfName name maxLength).data = specInitials s maxLength) ∧
    (getInitialsOfName name maxLength).length ≤ maxLength := by
  refine ⟨rfl, rfl, ?_, ?_⟩
  · intro s hs hne
    subst hs
    have hsne : (s == "") = false := by
      simp only [beq_eq_false_iff_ne, ne_eq]
      exact hne
    rw [getInitialsOfName_some_ne s maxLength hsne]
    unfold specInitials
    rw [initials_foldl_eq (s.splitOn " ") []]
    simp
  · cases name with
    | none => simp [getInitialsOfName]
    | some s =>
      by_cases hs : (s == "") = true
      · simp [getInitialsOfName, hs]
      · simp only [Bool.not_eq_true] at hs
        rw [getInitialsOfName_some_ne s maxLength hs]
        show (String.mk _).length ≤ maxLength
        simp only [String.length]
        exact List.length_take_le maxLength _

/-- C10 witness: the initials of a concrete two-word name. -/
theorem getInitialsOfName_spec_witness :
    (getInitialsOfName (some "Tiny Speck") 2).data = specInitials "Tiny Speck" 2 :=
  (getInitialsOfName_spec (some "Tiny Speck") 2).2.2.1 "Tiny Speck" rfl
    (by decide)

end SlackFont
